import Mathlib

/-!
Verification development for the cloud-dr-orchestrator repository.

The Go sources are shallowly embedded:
* file paths are modelled as `GoPath`: an absolute-path flag plus the list of
  slash-separated segments of the path string (the image of `strings.Split`
  on `/`); Go's `path/filepath` helpers `Base`, `Clean` and `Join` are
  translated onto this representation;
* byte sequences are `List Nat`;
* the external AEAD cipher (crypto/cipher GCM) and the password KDF
  (pbkdf2) are parameters, bundled with the correctness contract the Go
  standard library documents for them;
* filesystem effects are made explicit: a pipeline step returns the set of
  files present on disk after it ran.
-/

namespace DrOrch

/-! ## Path model (Go path/filepath) -/

/-- A file path: `abs` says whether the path string starts with `/`, and
`segs` is the list of slash-separated segments of the rest (empty segments
from doubled slashes are kept, as `strings.Split` keeps them). -/
structure GoPath where
  abs : Bool
  segs : List String
deriving DecidableEq

/-- The segment-stack loop of Go `path.Clean`: empty and `.` segments are
dropped, `..` pops the previously kept segment when there is one (at the
root of an absolute path it is dropped; on a relative path with nothing to
pop it is kept), and every other segment is pushed. `acc` is the stack of
kept segments in reverse order. -/
def cleanSegs (abs : Bool) (acc : List String) : List String → List String
  | [] => acc.reverse
  | s :: rest =>
    if s = "" ∨ s = "." then cleanSegs abs acc rest
    else if s = ".." then
      match acc with
      | [] => if abs then cleanSegs abs [] rest else cleanSegs abs [".."] rest
      | top :: acc2 =>
          if top = ".." then cleanSegs abs (".." :: top :: acc2) rest
          else cleanSegs abs acc2 rest
    else cleanSegs abs (s :: acc) rest

/-- Go `filepath.Clean` on the segment representation.  `⟨false, []⟩`
denotes the cleaned path `.` and `⟨true, []⟩` denotes `/`. -/
def goClean (p : GoPath) : GoPath :=
  ⟨p.abs, cleanSegs p.abs [] p.segs⟩

/-- Go `filepath.Base`: the last non-empty segment of the path (trailing
slashes stripped); `/` for a path made of separators only, `.` for an
empty relative path. -/
def goBase (p : GoPath) : String :=
  match p.segs.reverse.find? (fun s => decide (s ≠ "")) with
  | some s => s
  | none => if p.abs then "/" else "."

/-- Go `filepath.Join(dir, elem)` for the case the repository uses: `elem`
is the result of `filepath.Base`, hence either `/` or a single slash-free
segment.  Join concatenates with a separator and Cleans the result; an
elem of `/` contributes only empty segments, which Clean drops. -/
def goJoinBase (d : GoPath) (elem : String) : GoPath :=
  if elem = "/" then goClean d else goClean ⟨d.abs, d.segs ++ [elem]⟩

/-- Split a character list at `/` separators, keeping empty segments:
`strings.Split(s, "/")` on the underlying characters.  `cur` holds the
characters of the current segment in reverse. -/
def splitSlashAux (cur : List Char) : List Char → List String
  | [] => [String.mk cur.reverse]
  | c :: rest =>
      if c = '/' then String.mk cur.reverse :: splitSlashAux [] rest
      else splitSlashAux (c :: cur) rest

/-- The slash-separated segments of a path string. -/
def splitSlash (s : String) : List String :=
  splitSlashAux [] s.toList

/-- Whether a path string is absolute (starts with `/`). -/
def strIsAbs (s : String) : Bool :=
  match s.toList with
  | '/' :: _ => true
  | _ => false

/-- `filepath.Base` of a path given as a string (used where the Go code
calls `filepath.Base` on a string-typed path). -/
def strBase (s : String) : String :=
  goBase ⟨strIsAbs s, splitSlash s⟩

/-- `p` is the directory `d` itself or lies beneath it (its segment list
extends `d`'s). -/
def isWithin (d p : GoPath) : Bool :=
  d.abs == p.abs && p.segs.take d.segs.length == d.segs

/-! ## Encryption codec (pkg/encryption) -/

/-- Salt length used by `EncryptFile`/`DecryptFile` (`SaltSize`). -/
def SaltSize : Nat := 32

/-- GCM nonce length (`NonceSize`). -/
def NonceSize : Nat := 12

/-- AES-256 key length (`KeySize`). -/
def KeySize : Nat := 32

/-- PBKDF2 iteration count (`Iterations`). -/
def Iterations : Nat := 100000

/-- The authenticated-encryption cipher the Go code obtains from
`cipher.NewGCM(aes.NewCipher(key))`, abstracted to its interface together
with the contract the standard library documents: opening a sealed message
with the key and nonce that sealed it recovers the plaintext, and opening
with a different key fails authentication (the ideal-AEAD reading of GCM's
authenticity guarantee). `enc k n p` is the ciphertext-plus-tag that
`gcm.Seal` appends to its destination, `aopen` is `gcm.Open`. -/
structure AEAD where
  enc : List Nat → List Nat → List Nat → List Nat
  aopen : List Nat → List Nat → List Nat → Option (List Nat)
  open_enc : ∀ k n p, aopen k n (enc k n p) = some p
  open_wrong_key : ∀ k k2 n p, k ≠ k2 → aopen k2 n (enc k n p) = none

/-- Errors `DecryptFile` can report, one constructor per `return` with an
error in the source: the two length guards, and the single generic
authentication failure ("wrong password or corrupted file"). -/
inductive DecryptError
  | tooShort
  | ciphertextTooShort
  | authFailed
deriving DecidableEq

/-- The bytes `EncryptFile` writes to disk, given the salt and nonce the
call drew from `crypto/rand`: the key is PBKDF2-derived from the password
and salt, `gcm.Seal(nonce, nonce, plaintext, nil)` yields
`nonce ++ sealed`, and the salt is prepended, producing the envelope
`salt ++ nonce ++ ciphertext`. -/
def encryptFileBytes (sch : AEAD) (kdf : String → List Nat → List Nat)
    (password : String) (salt nonce plaintext : List Nat) : List Nat :=
  let key := kdf password salt
  let ciphertext := nonce ++ sch.enc key nonce plaintext
  salt ++ ciphertext

/-- The byte-level behaviour of `DecryptFile`: reject envelopes shorter
than `SaltSize + NonceSize`, split off the salt, re-derive the key from
the supplied password and the embedded salt, reject a remainder shorter
than the nonce, split off the nonce and call `gcm.Open`; an authentication
failure is the single generic error.  The decrypted output file is written
only in the `.ok` case, exactly as the source writes it only after
`gcm.Open` succeeds. -/
def decryptFileBytes (sch : AEAD) (kdf : String → List Nat → List Nat)
    (password : String) (encrypted : List Nat) : Except DecryptError (List Nat) :=
  if encrypted.length < SaltSize + NonceSize then .error .tooShort
  else
    let salt := encrypted.take SaltSize
    let ciphertext := encrypted.drop SaltSize
    let key := kdf password salt
    if ciphertext.length < NonceSize then .error .ciphertextTooShort
    else
      let nonce := ciphertext.take NonceSize
      let body := ciphertext.drop NonceSize
      match sch.aopen key nonce body with
      | some plaintext => .ok plaintext
      | none => .error .authFailed

/-- `IsEncrypted`: the path is longer than 10 bytes and ends in the fixed
suffix `.encrypted`. -/
def isEncrypted (filePath : String) : Bool :=
  decide (10 < filePath.length) && (filePath.takeRight 10 == ".encrypted")

/-! ## Compression percentage (pkg/backup) -/

/-- `Result.CalculateCompressionPct`: `0` when `OriginalSize` is zero,
otherwise `(1 - Size/OriginalSize) * 100`.  The Go `float64` arithmetic is
modelled exactly over the rationals. -/
def calculateCompressionPct (size originalSize : Int) : Rat :=
  if originalSize = 0 then 0
  else (1 - (size : Rat) / (originalSize : Rat)) * 100

/-- The compression percentage computed inline by `FileBackup.Backup`:
guarded by `totalSize > 0`, with `0.0` as the initial value otherwise. -/
def fileBackupCompressionPct (outSize totalSize : Int) : Rat :=
  if 0 < totalSize then (1 - (outSize : Rat) / (totalSize : Rat)) * 100
  else 0

/-! ## Object Store Gateway key naming (pkg/oracle) -/

/-- The `%02d` rendering of the month value in `UploadBackup`'s
`fmt.Sprintf`: two digits, zero-padded. -/
def pad2 (n : Nat) : String :=
  if n < 10 then "0" ++ toString n else toString n

/-- The object key `UploadBackup` builds:
`fmt.Sprintf("backups/%d/%02d/%s", now.Year(), now.Month(), filename)`. -/
def backupObjectKey (year month : Nat) (filename : String) : String :=
  "backups/" ++ toString year ++ "/" ++ pad2 month ++ "/" ++ filename

/-- `UploadBackup`: the filename is `filepath.Base(backupPath)` and the
object name is the date-partitioned key for the wall-clock year and month
at call time. -/
def uploadBackupObjectName (year month : Nat) (backupPath : GoPath) : String :=
  backupObjectKey year month (goBase backupPath)

/-! ## Health status (pkg/metrics and cmd/orchestrator handleHealth) -/

/-- The `HealthStatus` record.  `lastBackupTime` is `none` when the Go
`time.Time` is its zero value (`IsZero`), `some t` otherwise; time is
measured in seconds. -/
structure Health where
  lastBackupTime : Option Nat
  lastBackupError : String
  backupCount : Nat
  isHealthy : Bool
deriving DecidableEq

/-- The `globalHealth` initial value: healthy, no recorded backup. -/
def initialHealth : Health := ⟨none, "", 0, true⟩

/-- A recorded backup outcome, carrying the wall-clock time (seconds) at
which it was recorded. -/
inductive BackupEvent
  | success (t : Nat)
  | failure (t : Nat) (msg : String)

/-- `RecordBackupSuccess` / `RecordBackupError`: both stamp the current
time; success clears the error, bumps the count and sets healthy, failure
stores the message and sets unhealthy. -/
def recordEvent (h : Health) : BackupEvent → Health
  | .success t => ⟨some t, "", h.backupCount + 1, true⟩
  | .failure t msg => ⟨some t, msg, h.backupCount, false⟩

/-- The health state after a sequence of recorded outcomes. -/
def runEvents (es : List BackupEvent) : Health :=
  es.foldl recordEvent initialHealth

/-- Seconds in 25 hours, the staleness bound `25 * time.Hour` used by
`handleHealth`. -/
def staleBound : Nat := 25 * 3600

/-- The status string `handleHealth` reports at wall-clock time `now`:
`unhealthy` when the last recorded backup failed; otherwise `degraded`
when a backup time is recorded (`!IsZero`) and `time.Since` it exceeds 25
hours, else `healthy`. -/
def healthStatus (h : Health) (now : Nat) : String :=
  if h.isHealthy = false then "unhealthy"
  else
    match h.lastBackupTime with
    | none => "healthy"
    | some t => if staleBound < now - t then "degraded" else "healthy"

/-! ## Restore command (cmd/orchestrator restore.go and RestorePostgres) -/

/-- The processing steps a restore run can apply to the artifact. -/
inductive RestoreStep
  | decrypt
  | extract
  | psqlRestore
deriving DecidableEq

/-- The steps `runRestore` applies to the backup artifact (after flag
validation, optional download and the confirmation prompt): it calls
`backup.RestorePostgres`, which extracts the tar.gz and runs `psql`.  No
branch in `runRestore` or `RestorePostgres` tests `IsEncrypted` or calls
`DecryptFile`, and the command declares no decryption-key flag, so the
plan is the same for every artifact path. -/
def restorePlan (_backupFilePath : String) : List RestoreStep :=
  [RestoreStep.extract, RestoreStep.psqlRestore]

/-! ## Backup pipeline cleanup on failure (DumpPostgres, FileBackup.Backup) -/

/-- Errors of the database-backup pipeline. -/
inductive PgError
  | dumpFailed
  | compressFailed
deriving DecidableEq

/-- Error of the file-set backup run. -/
inductive FbError
  | walkFailed
deriving DecidableEq

/-- Add a file to the on-disk file set (an `os.Create` / subprocess
`-f` output). -/
def fsCreate (fs : List String) (p : String) : List String :=
  if p ∈ fs then fs else fs ++ [p]

/-- Remove a file from the on-disk file set (`os.Remove`). -/
def fsRemove (fs : List String) (p : String) : List String :=
  fs.erase p

/-- `fmt.Sprintf("%s-%s.sql", backupName, timestamp)`. -/
def dumpFileName (backupName ts : String) : String :=
  backupName ++ "-" ++ ts ++ ".sql"

/-- `fmt.Sprintf("%s-%s.tar.gz", backupName, timestamp)`. -/
def tarGzFileName (backupName ts : String) : String :=
  backupName ++ "-" ++ ts ++ ".tar.gz"

/-- The files `DumpPostgres` leaves on disk on each control path, with the
two fallible steps abstracted to their outcome: `pg_dump -f` writes the
dump file (left in place, partial, when the subprocess fails — the code
returns without removing it); on success `compressTarGz` creates the
tar.gz output file; if compression fails the code runs
`os.Remove(dumpFilePath)` and returns — the partially written tar.gz is
not removed; on success the dump file is removed. -/
def dumpPostgresFiles (backupName ts : String) (dumpOk compressOk : Bool) :
    Except PgError Unit × List String :=
  let dumpPath := dumpFileName backupName ts
  let tarPath := tarGzFileName backupName ts
  let fs := fsCreate [] dumpPath
  if dumpOk = false then (.error .dumpFailed, fs)
  else
    let fs := fsCreate fs tarPath
    if compressOk = false then (.error .compressFailed, fsRemove fs dumpPath)
    else (.ok (), fsRemove fs dumpPath)

/-- The files `FileBackup.Backup` leaves on disk: `os.Create(outputPath)`
runs before the walk; when the walk over a source fails the method
returns the error without removing the partially written archive (the
deferred calls only close the writers). -/
def fileBackupFiles (outputPath : String) (walkOk : Bool) :
    Except FbError Unit × List String :=
  let fs := fsCreate [] outputPath
  if walkOk = false then (.error .walkFailed, fs)
  else (.ok (), fs)

/-! ## Exclude rules and the backup walk (pkg/backup/files.go) -/

/-- The type of `filepath.Match` as the code consumes it: a pattern and a
candidate string give either `some matched` or `none` for
`ErrBadPattern`.  `shouldExclude` treats an erroring pattern as not
matching (`err == nil && matched`). -/
def Matcher : Type := String → String → Option Bool

/-- `FileBackup.shouldExclude`: some pattern matches the full path, or
matches just its base name, each time requiring `filepath.Match` to
succeed and report a match. -/
def shouldExclude (m : Matcher) (patterns : List String) (path : String) : Bool :=
  patterns.any (fun pat =>
    (m pat path == some true) || (m pat (strBase path) == some true))

/-- A filesystem subtree as `filepath.Walk` sees it: children of a
directory are listed in the (lexical) order the walk visits them. -/
inductive FTree
  | file (name : String)
  | dir (name : String) (children : List FTree)

/-- The name of a tree node. -/
def FTree.nodeName : FTree → String
  | .file n => n
  | .dir n _ => n

mutual
/-- The entries `FileBackup.Backup`'s walk callback writes to the archive
when visiting the node at path `p`: an excluded file is skipped, an
excluded directory returns `filepath.SkipDir` so its whole subtree is
pruned; surviving entries (directories included) get a tar header, paired
here with their `IsDir` flag.  Children are visited at
`p ++ "/" ++ name`. -/
def walkAt (m : Matcher) (patterns : List String) (p : String) :
    FTree → List (String × Bool)
  | .file _ => if shouldExclude m patterns p then [] else [(p, false)]
  | .dir _ cs =>
      if shouldExclude m patterns p then []
      else (p, true) :: walkChildren m patterns p cs

/-- Walk of a directory's children list, each at its slash-joined path. -/
def walkChildren (m : Matcher) (patterns : List String) (parent : String) :
    List FTree → List (String × Bool)
  | [] => []
  | c :: rest =>
      walkAt m patterns (parent ++ "/" ++ c.nodeName) c ++
        walkChildren m patterns parent rest
end

mutual
/-- `FileBackup.countFiles` on the node at path `p`: regular files that
survive exclusion count 1, directories count their children; an excluded
directory is skipped whole (`filepath.SkipDir`). -/
def countFilesAt (m : Matcher) (patterns : List String) (p : String) :
    FTree → Nat
  | .file _ => if shouldExclude m patterns p then 0 else 1
  | .dir _ cs =>
      if shouldExclude m patterns p then 0
      else countFilesChildren m patterns p cs

/-- File count of a directory's children list. -/
def countFilesChildren (m : Matcher) (patterns : List String) (parent : String) :
    List FTree → Nat
  | [] => 0
  | c :: rest =>
      countFilesAt m patterns (parent ++ "/" ++ c.nodeName) c +
        countFilesChildren m patterns parent rest
end

/-- Fuel-indexed core of Go `filepath.Match` restricted to the pattern
forms the repository's exclude rules use: `*` (matches any run of
non-separator characters), `?` (one non-separator character) and literal
characters; character classes and backslash escapes are outside the
model.  Each recursive call shortens pattern-plus-candidate, so the fuel
`p.length + s.length + 1` always suffices. -/
def globAux : Nat → List Char → List Char → Bool
  | 0, _, _ => false
  | _ + 1, [], s => s.isEmpty
  | fuel + 1, '*' :: ps, [] => globAux fuel ps []
  | fuel + 1, '*' :: ps, c :: s2 =>
      globAux fuel ps (c :: s2) ||
        (decide (c ≠ '/') && globAux fuel ('*' :: ps) s2)
  | fuel + 1, '?' :: ps, c :: s2 => decide (c ≠ '/') && globAux fuel ps s2
  | _ + 1, '?' :: _, [] => false
  | fuel + 1, c :: ps, d :: s2 => (c == d) && globAux fuel ps s2
  | _ + 1, _ :: _, [] => false

/-- Glob matching over strings; never reports `ErrBadPattern` since the
modelled pattern forms are always well-formed. -/
def globMatcher : Matcher := fun pat s =>
  some (globAux (pat.length + s.length + 1) pat.toList s.toList)

/-! ## Single-file tar.gz extraction (extractTarGz in postgres.go) -/

/-- Tar entry type flags, collapsed to what `extractTarGz` distinguishes:
`header.Typeflag == tar.TypeReg` versus everything else (directories,
symlinks, ...). -/
inductive TarType
  | reg
  | dir
  | symlink
  | other
deriving DecidableEq

/-- One tar entry: its header name (as a path), its type flag and its
content bytes. -/
structure TarEntry where
  name : GoPath
  typeflag : TarType
  content : List Nat

/-- The output path `extractTarGz` computes for an entry:
`filepath.Join(destDir, filepath.Base(header.Name))`. -/
def tarTarget (destDir : GoPath) (e : TarEntry) : GoPath :=
  goJoinBase destDir (goBase e.name)

/-- The extraction loop: entries are read in stream order; each
regular-file entry is written at its target path and becomes the current
`extractedFile`; every other entry is skipped.  `written` accumulates the
`(path, content)` pairs written so far, `lastFile` the current
`extractedFile`. -/
def extractLoop (destDir : GoPath) (written : List (GoPath × List Nat))
    (lastFile : Option GoPath) : List TarEntry → List (GoPath × List Nat) × Option GoPath
  | [] => (written, lastFile)
  | e :: rest =>
      if e.typeflag = TarType.reg then
        let t := tarTarget destDir e
        extractLoop destDir (written ++ [(t, e.content)]) (some t) rest
      else extractLoop destDir written lastFile rest

/-- Errors of `extractTarGz`: invalid gzip or tar framing (the
`gzip.NewReader` / `tarReader.Next` error returns), and the final
`"no files found in archive"` return when no regular file was
extracted. -/
inductive ExtractError
  | formatError
  | noRegularFiles
deriving DecidableEq

/-- `extractTarGz`: the compressed stream either fails to decode
(`.error ()`) or yields the tar entries in stream order; on a decode
failure the function returns the framing error, otherwise it runs the
extraction loop and fails if `extractedFile` was never set, else returns
the last extracted path (paired here with the files written). -/
def extractTarGz (stream : Except Unit (List TarEntry)) (destDir : GoPath) :
    Except ExtractError (GoPath × List (GoPath × List Nat)) :=
  match stream with
  | .error _ => .error .formatError
  | .ok entries =>
      match extractLoop destDir [] none entries with
      | (_, none) => .error .noRegularFiles
      | (written, some lastFile) => .ok (lastFile, written)

/-! ## Theorems -/

/-- Helper: `DecryptFile`'s byte-level behaviour on a well-formed envelope
`salt ++ nonce ++ body`: both length guards pass and the result is decided
by `gcm.Open` on the re-derived key. -/
theorem decryptFileBytes_append (sch : AEAD) (kdf : String → List Nat → List Nat)
    (password : String) (salt nonce body : List Nat)
    (hs : salt.length = SaltSize) (hn : nonce.length = NonceSize) :
    decryptFileBytes sch kdf password (salt ++ (nonce ++ body)) =
      match sch.aopen (kdf password salt) nonce body with
      | some plaintext => .ok plaintext
      | none => .error .authFailed := by
  have htake : (salt ++ (nonce ++ body)).take SaltSize = salt := by
    rw [← hs]; exact List.take_left _ _
  have hdrop : (salt ++ (nonce ++ body)).drop SaltSize = nonce ++ body := by
    rw [← hs]; exact List.drop_left _ _
  have htake2 : (nonce ++ body).take NonceSize = nonce := by
    rw [← hn]; exact List.take_left _ _
  have hdrop2 : (nonce ++ body).drop NonceSize = body := by
    rw [← hn]; exact List.drop_left _ _
  have hlen : ¬ (salt ++ (nonce ++ body)).length < SaltSize + NonceSize := by
    simp only [List.length_append, hs, hn]
    omega
  have hlen2 : ¬ (nonce ++ body).length < NonceSize := by
    simp only [List.length_append, hn]
    omega
  simp only [decryptFileBytes, htake, hdrop, htake2, hdrop2, hlen, hlen2,
    if_false, if_neg, ite_false]

/-- Claim C1: for every plaintext byte sequence and every password,
decrypting the envelope `EncryptFile` produces (salt ++ nonce ++
ciphertext, for the 32-byte salt and 12-byte nonce the call drew) with
`DecryptFile` and the same password succeeds and returns the original
plaintext byte-for-byte. -/
theorem c1_encrypt_decrypt_roundtrip (sch : AEAD)
    (kdf : String → List Nat → List Nat) (password : String)
    (salt nonce plaintext : List Nat)
    (hs : salt.length = SaltSize) (hn : nonce.length = NonceSize) :
    decryptFileBytes sch kdf password
      (encryptFileBytes sch kdf password salt nonce plaintext) = .ok plaintext := by
  rw [encryptFileBytes]
  rw [decryptFileBytes_append sch kdf password salt nonce _ hs hn]
  rw [sch.open_enc]

/-- Claim C2: decrypting an envelope produced under password `K1` with a
password `K2` whose derived key differs (PBKDF2 keys of distinct
passwords under the same salt) always fails with the single generic
authentication error, and the model returns no plaintext — mirroring the
source, which writes the decrypted output file only after `gcm.Open`
succeeds. -/
theorem c2_wrong_password_fails (sch : AEAD)
    (kdf : String → List Nat → List Nat) (pw1 pw2 : String)
    (salt nonce plaintext : List Nat)
    (hs : salt.length = SaltSize) (hn : nonce.length = NonceSize)
    (hk : kdf pw1 salt ≠ kdf pw2 salt) :
    decryptFileBytes sch kdf pw2
      (encryptFileBytes sch kdf pw1 salt nonce plaintext) =
      .error DecryptError.authFailed := by
  rw [encryptFileBytes]
  rw [decryptFileBytes_append sch kdf pw2 salt nonce _ hs hn]
  rw [sch.open_wrong_key _ _ _ _ hk]

/-- A concrete executable cipher satisfying the AEAD contract, used to
instantiate the round-trip and wrong-key theorems on concrete bytes: it
stores the key length, the key and the plaintext, and opening checks the
stored key against the supplied one. -/
def listAEAD : AEAD where
  enc k _ p := k.length :: (k ++ p)
  aopen k _ c :=
    match c with
    | [] => none
    | kl :: rest => if kl = k.length ∧ rest.take kl = k then some (rest.drop kl) else none
  open_enc := by
    intro k n p
    simp
  open_wrong_key := by
    intro k k2 n p hne
    simp only []
    rw [if_neg]
    rintro ⟨h1, h2⟩
    rw [List.take_left] at h2
    exact hne h2

/-- A concrete executable key-derivation function (stands in for PBKDF2 in
the witnesses): password length, then salt, then the password bytes. -/
def witnessKdf (password : String) (salt : List Nat) : List Nat :=
  password.length :: (salt ++ password.toList.map Char.toNat)

/-- Witness for C1 at a concrete input. -/
theorem c1_encrypt_decrypt_roundtrip_witness :
    decryptFileBytes listAEAD witnessKdf "hunter2"
      (encryptFileBytes listAEAD witnessKdf "hunter2"
        (List.replicate 32 0) (List.replicate 12 0) [1, 2, 3]) = .ok [1, 2, 3] :=
  c1_encrypt_decrypt_roundtrip listAEAD witnessKdf "hunter2" _ _ [1, 2, 3]
    (by decide) (by decide)

/-- Witness for C2 at a concrete input. -/
theorem c2_wrong_password_fails_witness :
    decryptFileBytes listAEAD witnessKdf "passwordB"
      (encryptFileBytes listAEAD witnessKdf "passwordA"
        (List.replicate 32 0) (List.replicate 12 0) [1, 2, 3]) =
      .error DecryptError.authFailed :=
  c2_wrong_password_fails listAEAD witnessKdf "passwordA" "passwordB" _ _ [1, 2, 3]
    (by decide) (by decide) (by decide)

/-- Claim C3 counterexample: with a successful dump and a failing
compression step, `DumpPostgres` returns the compression error yet the
partially written `.tar.gz` of the failing step is still on disk; and a
file-set backup whose walk fails mid-stream returns the walk error with
the partially written archive still on disk.  This refutes the claim that
the pipeline removes any artifact file partially written by the failing
step. -/
theorem c3_cleanup_counterexample :
    ((dumpPostgresFiles "db" "ts" true false).1 = .error PgError.compressFailed
      ∧ tarGzFileName "db" "ts" ∈ (dumpPostgresFiles "db" "ts" true false).2)
    ∧ ((fileBackupFiles "out.tar.gz" false).1 = .error FbError.walkFailed
      ∧ "out.tar.gz" ∈ (fileBackupFiles "out.tar.gz" false).2) :=
  ⟨⟨rfl, by decide⟩, ⟨rfl, by decide⟩⟩

/-- Claim C3, amended: when compression fails after a successful database
dump, the dump file (the earlier intermediate) is removed, but the
partially written `.tar.gz` of the failing step itself is left on disk;
and a mid-walk failure of the file-set backup likewise leaves the
partially written archive on disk. -/
theorem c3_cleanup_amended (name ts out : String) :
    dumpPostgresFiles name ts true false
      = (.error PgError.compressFailed, [tarGzFileName name ts])
    ∧ fileBackupFiles out false = (.error FbError.walkFailed, [out]) := by
  have hlen : (dumpFileName name ts).length ≠ (tarGzFileName name ts).length := by
    have h1 : (".sql" : String).length = 4 := rfl
    have h2 : (".tar.gz" : String).length = 7 := rfl
    simp only [dumpFileName, tarGzFileName, String.length_append, h1, h2]
    omega
  have hne : tarGzFileName name ts ≠ dumpFileName name ts := by
    intro h
    exact hlen (congrArg String.length h.symm)
  constructor
  · simp [dumpPostgresFiles, fsCreate, fsRemove, hne, List.erase_cons_head]
  · simp [fileBackupFiles, fsCreate]

/-- Claim C4: the restore command applies the same processing plan —
extract, then run the restore tool — to every artifact path; for a path
carrying the `.encrypted` marker, no decryption step precedes extraction
and no missing-key error is raised, contradicting the claimed (and
README-documented) behaviour. -/
theorem c4_restore_skips_decryption :
    isEncrypted "backup-20251209.tar.gz.encrypted" = true
    ∧ restorePlan "backup-20251209.tar.gz.encrypted"
        = [RestoreStep.extract, RestoreStep.psqlRestore]
    ∧ RestoreStep.decrypt ∉ restorePlan "backup-20251209.tar.gz.encrypted" := by
  refine ⟨by decide, rfl, by decide⟩

/-- Claim C7: the object key computed by `UploadBackup` when no explicit
key is given is `backups/<year>/<zero-padded month>/<basename>`, and the
artifact `backup-20251209.tar.gz` uploaded at wall-clock date 2025-12-09
gets exactly the key `backups/2025/12/backup-20251209.tar.gz`. -/
theorem c7_object_key (year month : Nat) (p : GoPath) :
    uploadBackupObjectName year month p
      = "backups/" ++ toString year ++ "/" ++ pad2 month ++ "/" ++ goBase p
    ∧ uploadBackupObjectName 2025 12 ⟨false, ["backup-20251209.tar.gz"]⟩
      = "backups/2025/12/backup-20251209.tar.gz" :=
  ⟨rfl, by decide⟩

/-- Claim C8: the reported compression percentage is the ratio
`1 - compressedSize/originalSize` (scaled to percent), and when
`originalSize = 0` both the `Result` method and the inline guard in
`FileBackup.Backup` define the value as `0` — the division branch is
never taken. -/
theorem c8_compression_pct (size originalSize : Int) :
    (originalSize = 0 → calculateCompressionPct size originalSize = 0)
    ∧ (originalSize ≠ 0 →
        calculateCompressionPct size originalSize / 100
          = 1 - (size : Rat) / (originalSize : Rat))
    ∧ fileBackupCompressionPct size 0 = 0 := by
  refine ⟨fun h => by simp [calculateCompressionPct, h], fun h => ?_,
    by simp [fileBackupCompressionPct]⟩
  rw [calculateCompressionPct, if_neg h, mul_div_assoc]
  norm_num

/-- Witness for C8 at concrete sizes. -/
theorem c8_compression_pct_witness :
    calculateCompressionPct 50 100 / 100 = 1 - (50 : Rat) / 100
    ∧ calculateCompressionPct 7 0 = 0 :=
  ⟨(c8_compression_pct 50 100).2.1 (by decide), (c8_compression_pct 7 0).1 rfl⟩

/-- Claim C9: after any recorded history, a recorded failure makes the
reported status `unhealthy`; the next recorded success makes the state
healthy again (and the status `healthy` while the success is at most 25
hours old); and the status is `degraded` exactly when the state is
healthy and a recorded backup time lies more than 25 hours in the
past. -/
theorem c9_health_transitions (es : List BackupEvent) (t now : Nat) (msg : String) :
    healthStatus (runEvents (es ++ [BackupEvent.failure t msg])) now = "unhealthy"
    ∧ ((runEvents (es ++ [BackupEvent.success t])).isHealthy = true
        ∧ (now - t ≤ staleBound →
            healthStatus (runEvents (es ++ [BackupEvent.success t])) now = "healthy"))
    ∧ (∀ h : Health, healthStatus h now = "degraded" ↔
        (h.isHealthy = true ∧ ∃ u, h.lastBackupTime = some u ∧ staleBound < now - u)) := by
  have hud : ("unhealthy" : String) ≠ "degraded" := by decide
  have hhd : ("healthy" : String) ≠ "degraded" := by decide
  refine ⟨?_, ⟨?_, ?_⟩, ?_⟩
  · simp [runEvents, List.foldl_append, recordEvent, healthStatus]
  · simp [runEvents, List.foldl_append, recordEvent]
  · intro hle
    simp only [runEvents, List.foldl_append, List.foldl_cons, List.foldl_nil,
      recordEvent, healthStatus]
    rw [if_neg (by simp), if_neg (by omega)]
  · intro h
    obtain ⟨lt, le2, c, ih⟩ := h
    cases ih
    · simp [healthStatus, hud.symm]
    · cases lt with
      | none => simp [healthStatus, hhd.symm]
      | some u =>
          simp only [healthStatus]
          rw [if_neg (by simp)]
          by_cases hc : staleBound < now - u
          · simp [hc]
          · simp [hc, hhd.symm]

/-- Witness for C9 at a concrete event history. -/
theorem c9_health_transitions_witness :
    healthStatus (runEvents ([BackupEvent.failure 10 "x"] ++ [BackupEvent.success 20])) 20
      = "healthy" :=
  ((c9_health_transitions [BackupEvent.failure 10 "x"] 20 20 "x").2.1).2 (by decide)

mutual
/-- Helper: every entry the backup walk emits survived the exclusion
test. -/
theorem walkAt_not_excluded (m : Matcher) (patterns : List String) :
    ∀ (p : String) (t : FTree) (e : String × Bool),
      e ∈ walkAt m patterns p t → shouldExclude m patterns e.1 = false
  | p, .file n, e, hmem => by
      by_cases h : shouldExclude m patterns p = true
      · simp [walkAt, h] at hmem
      · rw [walkAt, if_neg h] at hmem
        rcases List.mem_singleton.mp hmem with rfl
        exact Bool.eq_false_iff.mpr h
  | p, .dir n cs, e, hmem => by
      by_cases h : shouldExclude m patterns p = true
      · simp [walkAt, h] at hmem
      · rw [walkAt, if_neg h] at hmem
        rcases List.mem_cons.mp hmem with rfl | hm
        · exact Bool.eq_false_iff.mpr h
        · exact walkChildren_not_excluded m patterns p cs e hm

/-- Helper: the children's part of `walkAt_not_excluded`. -/
theorem walkChildren_not_excluded (m : Matcher) (patterns : List String) :
    ∀ (parent : String) (cs : List FTree) (e : String × Bool),
      e ∈ walkChildren m patterns parent cs → shouldExclude m patterns e.1 = false
  | _, [], e, hmem => by simp [walkChildren] at hmem
  | parent, c :: rest, e, hmem => by
      rw [walkChildren] at hmem
      rcases List.mem_append.mp hmem with h1 | h2
      · exact walkAt_not_excluded m patterns _ c e h1
      · exact walkChildren_not_excluded m patterns parent rest e h2
end

/-- Claim C5: a visited path is excluded iff some exclude pattern matches
the full path or its base name (each only when `filepath.Match` succeeds);
an excluded directory contributes nothing to the archive walk and nothing
to the file count (its subtree is pruned); and every entry the walk does
emit is not excluded. -/
theorem c5_exclude_semantics (m : Matcher) (patterns : List String)
    (p : String) (t : FTree) :
    (shouldExclude m patterns p = true ↔
      ∃ pat ∈ patterns, m pat p = some true ∨ m pat (strBase p) = some true)
    ∧ (∀ n cs, shouldExclude m patterns p = true →
        walkAt m patterns p (FTree.dir n cs) = []
        ∧ countFilesAt m patterns p (FTree.dir n cs) = 0)
    ∧ (∀ e ∈ walkAt m patterns p t, shouldExclude m patterns e.1 = false) := by
  refine ⟨?_, ?_, fun e he => walkAt_not_excluded m patterns p t e he⟩
  · simp [shouldExclude, List.any_eq_true]
  · intro n cs h
    exact ⟨by simp [walkAt, h], by simp [countFilesAt, h]⟩

/-- Witness for C5: the exclude rule `tmp` matches the base name of the
directory `src/tmp`, and the walk prunes its whole subtree. -/
theorem c5_exclude_semantics_witness :
    walkAt globMatcher ["tmp"] "src/tmp" (FTree.dir "tmp" [FTree.file "x.txt"]) = []
    ∧ countFilesAt globMatcher ["tmp"] "src/tmp" (FTree.dir "tmp" [FTree.file "x.txt"]) = 0 :=
  (c5_exclude_semantics globMatcher ["tmp"] "src/tmp"
    (FTree.file "z")).2.1 "tmp" [FTree.file "x.txt"] (by decide)

/-- Helper: `getLast?` of a cons, as a match on the tail's `getLast?`. -/
theorem getLast?_cons_match {α : Type} (a : α) (l : List α) :
    (a :: l).getLast? =
      match l.getLast? with
      | some x => some x
      | none => some a := by
  cases l with
  | nil => rfl
  | cons b t =>
      rw [List.getLast?_cons_cons]
      cases h : (b :: t).getLast? with
      | none =>
          have := List.getLast?_eq_none_iff.mp h
          simp at this
      | some x => rfl

/-- Helper: the extraction loop appends, in stream order, one write per
regular-file entry, and tracks the target of the last regular file
seen. -/
theorem extractLoop_spec (destDir : GoPath) :
    ∀ (entries : List TarEntry) (written : List (GoPath × List Nat))
      (lastFile : Option GoPath),
      extractLoop destDir written lastFile entries =
        (written ++ (entries.filter (fun e => e.typeflag == TarType.reg)).map
            (fun e => (tarTarget destDir e, e.content)),
          match ((entries.filter (fun e => e.typeflag == TarType.reg)).map
              (fun e => tarTarget destDir e)).getLast? with
          | some lastT => some lastT
          | none => lastFile)
  | [], written, lastFile => by simp [extractLoop]
  | e :: rest, written, lastFile => by
      by_cases h : e.typeflag = TarType.reg
      · rw [extractLoop, if_pos h,
          extractLoop_spec destDir rest (written ++ [(tarTarget destDir e, e.content)])
            (some (tarTarget destDir e))]
        have hf : (e :: rest).filter (fun x => x.typeflag == TarType.reg)
            = e :: rest.filter (fun x => x.typeflag == TarType.reg) := by
          simp [List.filter_cons, h]
        rw [hf]
        simp only [List.map_cons, List.append_assoc, List.singleton_append,
          getLast?_cons_match]
        cases hr : ((rest.filter (fun x => x.typeflag == TarType.reg)).map
            (fun x => tarTarget destDir x)).getLast? <;> simp
      · rw [extractLoop, if_neg h, extractLoop_spec destDir rest written lastFile]
        have hf : (e :: rest).filter (fun x => x.typeflag == TarType.reg)
            = rest.filter (fun x => x.typeflag == TarType.reg) := by
          simp [List.filter_cons, h]
        rw [hf]

/-- Claim C6: extraction of a compressed tar stream fails with the
framing error when the gzip/tar decode fails; otherwise it writes exactly
the regular-file entries, in stream order, each to the destination
directory under the entry's base name (directories and symlinks are
skipped), returns the target of the last regular file written, and fails
with the no-files error when the stream holds no regular-file entry. -/
theorem c6_extract_single_file (entries : List TarEntry) (destDir : GoPath) :
    extractTarGz (Except.error ()) destDir = .error ExtractError.formatError
    ∧ extractTarGz (.ok entries) destDir =
        (match ((entries.filter (fun e => e.typeflag == TarType.reg)).map
            (fun e => tarTarget destDir e)).getLast? with
         | none => .error ExtractError.noRegularFiles
         | some lastT =>
             .ok (lastT, (entries.filter (fun e => e.typeflag == TarType.reg)).map
               (fun e => (tarTarget destDir e, e.content)))) := by
  refine ⟨rfl, ?_⟩
  rw [extractTarGz, extractLoop_spec destDir entries [] none]
  cases hr : ((entries.filter (fun e => e.typeflag == TarType.reg)).map
      (fun e => tarTarget destDir e)).getLast? with
  | none =>
      have : (entries.filter (fun e => e.typeflag == TarType.reg)).map
          (fun e => (tarTarget destDir e, e.content)) = [] := by
        have h0 := List.getLast?_eq_none_iff.mp hr
        have h1 : entries.filter (fun e => e.typeflag == TarType.reg) = [] := by
          simpa using h0
        simp [h1]
      simp [this]
  | some lastT => simp

/-- Helper: `filepath.Base` never returns the empty string. -/
theorem goBase_ne_empty (p : GoPath) : goBase p ≠ "" := by
  rw [goBase]
  cases hf : p.segs.reverse.find? (fun s => decide (s ≠ "")) with
  | none =>
      cases p.abs <;> simp
  | some s =>
      have hs := List.find?_some hf
      simpa using hs

/-- Helper: the Clean loop on an exhausted input returns the kept
segments. -/
theorem cleanSegs_nil (abs : Bool) (acc : List String) :
    cleanSegs abs acc [] = acc.reverse := rfl

/-- Helper: the Clean loop pushes a normal segment (not empty, not `.`,
not `..`) onto the stack. -/
theorem cleanSegs_normal_cons (abs : Bool) (s : String) (acc m : List String)
    (h : s ≠ "" ∧ s ≠ "." ∧ s ≠ "..") :
    cleanSegs abs acc (s :: m) = cleanSegs abs (s :: acc) m := by
  rw [cleanSegs.eq_def]
  simp [h.1, h.2.1, h.2.2]

/-- Helper: a `..` segment pops a kept segment that is itself not
`..`. -/
theorem cleanSegs_pop (abs : Bool) (top : String) (acc m : List String)
    (h : top ≠ "..") :
    cleanSegs abs (top :: acc) (".." :: m) = cleanSegs abs acc m := by
  rw [cleanSegs.eq_def]
  simp [h, show (".." : String) ≠ "" by decide, show (".." : String) ≠ "." by decide]

/-- Helper: the Clean loop passes a run of normal segments (not empty,
not `.`, not `..`) straight onto the stack. -/
theorem cleanSegs_append_normal (abs : Bool) :
    ∀ (l : List String) (acc m : List String),
      (∀ s ∈ l, s ≠ "" ∧ s ≠ "." ∧ s ≠ "..") →
      cleanSegs abs acc (l ++ m) = cleanSegs abs (l.reverse ++ acc) m
  | [], acc, m, _ => by simp
  | s :: rest, acc, m, h => by
      have hs := h s (List.mem_cons_self s rest)
      rw [List.cons_append, cleanSegs_normal_cons abs s acc (rest ++ m) hs,
        cleanSegs_append_normal abs rest (s :: acc) m
          (fun x hx => h x (List.mem_cons_of_mem s hx))]
      simp

/-- Claim C10, amended: the extraction target is always
`Join(destDir, Base(header.Name))`; for every entry whose base name is an
ordinary segment (not `.`, `..` or `/`) the file target lies directly
inside the destination directory, while an entry name whose final
component is `..` yields the parent directory of the destination as the
target path (at which no regular file can be created, since it denotes an
existing directory). -/
theorem c10_base_only_amended (destDir : GoPath) (e : TarEntry)
    (hnorm : ∀ s ∈ destDir.segs, s ≠ "" ∧ s ≠ "." ∧ s ≠ "..") :
    (goBase e.name ≠ "." → goBase e.name ≠ ".." → goBase e.name ≠ "/" →
      tarTarget destDir e = ⟨destDir.abs, destDir.segs ++ [goBase e.name]⟩
        ∧ isWithin destDir (tarTarget destDir e) = true)
    ∧ (goBase e.name = ".." → destDir.segs ≠ [] →
      tarTarget destDir e = ⟨destDir.abs, destDir.segs.dropLast⟩) := by
  constructor
  · intro h1 h2 h3
    have hb : goBase e.name ≠ "" := goBase_ne_empty e.name
    have hseg : cleanSegs destDir.abs [] (destDir.segs ++ [goBase e.name])
        = destDir.segs ++ [goBase e.name] := by
      rw [cleanSegs_append_normal destDir.abs destDir.segs [] [goBase e.name] hnorm,
        List.append_nil,
        cleanSegs_normal_cons destDir.abs (goBase e.name) destDir.segs.reverse []
          ⟨hb, h1, h2⟩,
        cleanSegs_nil]
      simp
    have heq : tarTarget destDir e = ⟨destDir.abs, destDir.segs ++ [goBase e.name]⟩ := by
      rw [tarTarget, goJoinBase, if_neg h3]
      show GoPath.mk destDir.abs
          (cleanSegs destDir.abs [] (destDir.segs ++ [goBase e.name])) = _
      rw [hseg]
    refine ⟨heq, ?_⟩
    rw [heq, isWithin]
    simp [List.take_left]
  · intro h1 h2
    rcases List.eq_nil_or_concat destDir.segs with hnil | ⟨l2, a, hcat⟩
    · exact absurd hnil h2
    · have ha : a ≠ ".." := by
        have := hnorm a (by rw [hcat]; simp)
        exact this.2.2
      have hseg : cleanSegs destDir.abs [] (destDir.segs ++ [".."])
          = destDir.segs.dropLast := by
        rw [cleanSegs_append_normal destDir.abs destDir.segs [] [".."] hnorm,
          List.append_nil, hcat]
        simp only [List.concat_eq_append, List.reverse_append, List.reverse_cons,
          List.reverse_nil, List.nil_append, List.cons_append]
        rw [cleanSegs_pop destDir.abs a l2.reverse [] ha, cleanSegs_nil]
        simp [List.dropLast_concat]
      rw [tarTarget, h1, goJoinBase, if_neg (by decide)]
      show GoPath.mk destDir.abs
          (cleanSegs destDir.abs [] (destDir.segs ++ [".."])) = _
      rw [hseg]

/-- Claim C10 counterexample: a regular-file tar entry named `..`
produces the target path `Join(destDir, "..")`, which Clean resolves to
the parent of the destination directory — a path outside it — refuting
the claim that entries with `..` segments can never yield an output path
outside the destination directory. -/
theorem c10_traversal_counterexample :
    tarTarget ⟨true, ["tmp", "restore"]⟩ ⟨⟨false, [".."]⟩, TarType.reg, []⟩
        = ⟨true, ["tmp"]⟩
    ∧ isWithin ⟨true, ["tmp", "restore"]⟩
        (tarTarget ⟨true, ["tmp", "restore"]⟩ ⟨⟨false, [".."]⟩, TarType.reg, []⟩)
        = false := by
  refine ⟨by decide, by decide⟩

/-- Witness for the amended C10 at a concrete entry: the classic
traversal payload `../../etc/passwd` is defused to the base name
`passwd` inside the destination. -/
theorem c10_base_only_amended_witness :
    tarTarget ⟨true, ["tmp", "restore"]⟩
        ⟨⟨false, ["..", "..", "etc", "passwd"]⟩, TarType.reg, []⟩
      = ⟨true, ["tmp", "restore", "passwd"]⟩ :=
  ((c10_base_only_amended ⟨true, ["tmp", "restore"]⟩
      ⟨⟨false, ["..", "..", "etc", "passwd"]⟩, TarType.reg, []⟩
      (by decide)).1 (by decide) (by decide) (by decide)).1

end DrOrch
